import Mathlib

/-!
Verification development for the ViperMonkey command-line driver
(`vipermonkey/vmonkey.py`).  The Python source works line-by-line on
macro text; we embed it shallowly: a line is a `List Char`, a text is a
`List Char` containing newline separators, and every Python string
primitive used by the source (`strip`, `split`, `replace`, `index`,
`rindex`, `in`, `startswith`, `endswith`, `count`, `lower`) is given a
faithful executable counterpart below.  Stateful loops become folds over
explicit state structures.  External collaborators (the pyparsing
grammar, olevba's extractors) are parameters of the functions that call
them.
-/

/-- A line (or any Python string) is a list of characters. -/
abbrev Line := List Char

/-- Characters of a Lean string literal, used to write `Line` constants. -/
def strL (s : String) : Line := s.data

/-- Python 2 whitespace for `str.strip` / regex `\s`. -/
def isPySpace (c : Char) : Bool :=
  c = ' ' || c = '\t' || c = '\n' || c = '\r' || c = '\x0b' || c = '\x0c'

/-- Python regex word character `\w` (ASCII, no locale flags). -/
def isWordChar (c : Char) : Bool :=
  c.isAlpha || c.isDigit || c = '_'

/-- Python `s.strip()`: drop leading and trailing whitespace. -/
def pyStrip (l : Line) : Line :=
  ((l.dropWhile isPySpace).reverse.dropWhile isPySpace).reverse

/-- Python `s.startswith(p)`. -/
def startsWithL (l p : Line) : Bool := p.isPrefixOf l

/-- Python `s.endswith(p)`. -/
def endsWithL (l p : Line) : Bool := p.reverse.isPrefixOf l.reverse

/-- Scan helper for substring containment. -/
def containsLAux (p : Line) : Line → Bool
  | [] => p.isEmpty
  | c :: tl => p.isPrefixOf (c :: tl) || containsLAux p tl

/-- Python `p in l` (substring containment; the empty pattern is contained). -/
def containsL (l p : Line) : Bool := containsLAux p l

/-- Python `s.replace(" ", "")`: delete space characters (only `' '`). -/
def removeSpaces (l : Line) : Line := l.filter (fun c => !(c = ' '))

/-- Python `s.lower()` (ASCII). -/
def lowerL (l : Line) : Line := l.map Char.toLower

/-- Python `s.split(sep)` for a one-character separator: always returns at
least one piece, keeps empty pieces, so `"".split` is `[""]` and a trailing
separator yields a trailing empty piece. -/
def splitOnChar (sep : Char) : Line → List Line
  | [] => [[]]
  | c :: tl =>
    if c = sep then [] :: splitOnChar sep tl
    else
      match splitOnChar sep tl with
      | [] => [[c]]
      | h :: t => (c :: h) :: t

/-- Python `vba_code.split("\n")`. -/
def splitLines (cs : Line) : List Line := splitOnChar '\n' cs

/-- The accumulation pattern `r += line + "\n"` of the source: every emitted
line is newline-terminated. -/
def joinNL : List Line → Line
  | [] => []
  | l :: ls => l ++ '\n' :: joinNL ls

/-- Concatenation of a list of lists (used to describe block layouts). -/
def flatL : List (List Line) → List Line
  | [] => []
  | l :: ls => l ++ flatL ls

/-- Fuel-driven worker for `replaceL`. -/
def replaceLAux (pat repl : Line) : Nat → Line → Line
  | 0, cs => cs
  | fuel + 1, cs =>
    match cs with
    | [] => []
    | c :: tl =>
      if pat.isPrefixOf (c :: tl) && !pat.isEmpty then
        repl ++ replaceLAux pat repl fuel ((c :: tl).drop pat.length)
      else
        c :: replaceLAux pat repl fuel tl

/-- Python `s.replace(pat, repl)`: replace every non-overlapping occurrence,
scanning left to right. -/
def replaceL (cs pat repl : Line) : Line := replaceLAux pat repl cs.length cs

/-- Fuel-driven worker for `idxOfSub`. -/
def idxOfSubAux (pat : Line) : Nat → Line → Nat → Nat
  | 0, _, acc => acc
  | fuel + 1, cs, acc =>
    if pat.isPrefixOf cs then acc
    else
      match cs with
      | [] => acc
      | _ :: tl => idxOfSubAux pat fuel tl (acc + 1)

/-- Python `s.index(pat)`: position of the first occurrence (the source only
calls it when the pattern is known to occur). -/
def idxOfSub (cs pat : Line) : Nat := idxOfSubAux pat (cs.length + 1) cs 0

/-- Python `s.rindex(c)` for a single character. -/
def rIdxOfChar (cs : Line) (c : Char) : Nat :=
  cs.length - 1 - idxOfSub cs.reverse [c]

/-- Python `line[line.rindex("=") + 1:]`: the text after the last `=`,
written as the last piece of the `=`-split. -/
def afterLastEq (l : Line) : Line := (splitOnChar '=' l).getLastD []

/-- The caret line `" " * (err.column - 1) + "^"` printed under a parse
failure. -/
def caretLine (column : Nat) : String :=
  ⟨List.replicate (column - 1) ' ' ++ ['^']⟩

/-!
The assignment regex.  `strip_useless_code` scans every line with
`re.compile("\s*(\w+(\.\w+)*)\s*=\s*").findall(line)` and keeps the first
group of each non-overlapping match.  Since `\s` and `\w` are disjoint the
greedy scan below is equivalent to the backtracking engine.
-/

/-- Consume `(\.\w+)*` greedily: repeated dot-plus-word groups. -/
def parseDots : Nat → Line → Line × Line
  | 0, cs => ([], cs)
  | fuel + 1, cs =>
    match cs with
    | '.' :: c :: tl =>
      if isWordChar c then
        let w := (c :: tl).takeWhile isWordChar
        let r := (c :: tl).dropWhile isWordChar
        let (m, r2) := parseDots fuel r
        ('.' :: (w ++ m), r2)
      else ([], cs)
    | other => ([], other)

/-- Try to match `\s*(\w+(\.\w+)*)\s*=` at the current position, returning
the captured name and the rest of the line after the `=`. -/
def tryAssignAt (cs : Line) : Option (Line × Line) :=
  let s1 := cs.dropWhile isPySpace
  let name1 := s1.takeWhile isWordChar
  let r1 := s1.dropWhile isWordChar
  if name1.isEmpty then none
  else
    let (dots, r2) := parseDots r1.length r1
    match r2.dropWhile isPySpace with
    | '=' :: rest => some (name1 ++ dots, rest)
    | _ => none

/-- Fuel-driven scan for all matches (non-overlapping, left to right). -/
def findAssignNamesAux : Nat → Line → List Line
  | 0, _ => []
  | fuel + 1, cs =>
    match cs with
    | [] => []
    | c :: tl =>
      match tryAssignAt (c :: tl) with
      | some (n, rest) => n :: findAssignNamesAux fuel rest
      | none => findAssignNamesAux fuel tl

/-- All captured assignment names of a line (group 1 of each `findall`
match). -/
def findAssignNames (l : Line) : List Line :=
  findAssignNamesAux (l.length + 1) l

/-!  Direct transcriptions of the helper predicates of `vmonkey.py`.  -/

/-- `is_useless_dim(line)` from the source: a `Dim` that mentions none of
the substrings `Byte`/`Long`/`Integer`, has no `:` or `=`, and does not end
with a continuation underscore. -/
def is_useless_dim (line : Line) : Bool :=
  let l := pyStrip line
  startsWithL l (strL "Dim ") &&
  !containsL l (strL "Byte") &&
  !containsL l (strL "Long") &&
  !containsL l (strL "Integer") &&
  !containsL l (strL ":") &&
  !containsL l (strL "=") &&
  !endsWithL (pyStrip l) (strL "_")

/-- `is_useless_call(line)` from the source: no `=`, a `(` present, and the
text before the first `(` of the space-stripped line is one of the
do-nothing functions. -/
def is_useless_call (line : Line) : Bool :=
  if containsL line (strL "=") then false
  else if !containsL line (strL "(") then false
  else
    let ns := removeSpaces line
    let called := ns.takeWhile (fun c => !(c = '('))
    called = strL "Cos" || called = strL "Log" || called = strL "Exp" ||
    called = strL "Sin" || called = strL "Tan"

/-- The tracked interesting-call substrings of `is_interesting_call`. -/
def logFuncs : List Line :=
  [strL "CreateProcessA", strL "CreateProcessW", strL ".run",
   strL "CreateObject", strL "Open", strL ".Open", strL "GetObject",
   strL "Create", strL ".Create", strL "Environ", strL "CreateTextFile",
   strL ".CreateTextFile", strL "Eval", strL ".Eval", strL "Run",
   strL "SetExpandedStringValue", strL "WinExec", strL "URLDownloadToFile",
   strL "Print"]

/-- The name sliced out of a `Declare ... Lib ...` line:
`decl[decl.index("Function")+8 : decl.index("Lib")].strip()` (an empty
slice when `Function` occurs after `Lib`, exactly as in Python). -/
def extFuncName (decl : Line) : Line :=
  let start := idxOfSub decl (strL "Function") + 8
  let stop := idxOfSub decl (strL "Lib")
  pyStrip ((decl.drop start).take (stop - start))

/-- `is_interesting_call(line, external_funcs)` from the source. -/
def is_interesting_call (line : Line) (external_funcs : List Line) : Bool :=
  logFuncs.any (fun f => containsL line f) ||
  external_funcs.any (fun d =>
    containsL d (strL "Function") && containsL d (strL "Lib") &&
    containsL line (extFuncName d))

/-- The data name pulled out of a `Sub NAME_Change()` callback header by the
chain of `replace` calls in the source. -/
def changeName (line : Line) : Line :=
  pyStrip (replaceL (replaceL (replaceL (replaceL (replaceL line
    (strL "Sub ") []) (strL "Private ") []) (strL " ") [])
    (strL "()") []) (strL "_Change") [])

/-- State of the first pass of `strip_useless_code` (assignment scan). -/
structure ScanSt where
  lineNum : Nat
  externalFuncs : List Line
  changeCallbacks : List Line
  entries : List (Line × Nat)

/-- The per-line guards after which an assignment line is tracked in
`assigns` (every `continue` of the first loop, in source order). -/
def trackedLine (line : Line) (efs : List Line) : Bool :=
  let sl := pyStrip line
  !(findAssignNames line).isEmpty &&
  !startsWithL sl (strL "Function ") &&
  !endsWithL sl (strL "_") &&
  !(containsL line (strL "Sub ") || containsL line (strL "Function ")) &&
  !(containsL line (strL "GetObject") || containsL line (strL "Shell")) &&
  !is_interesting_call line efs &&
  !(startsWithL sl (strL "If ") || startsWithL sl (strL "For ") ||
    startsWithL sl (strL "Do ")) &&
  !(startsWithL sl (strL ".") || startsWithL (lowerL sl) (strL "let .")) &&
  !(containsL line (strL "\"") &&
    idxOfSub line (strL "\"") < idxOfSub line (strL "=") &&
    idxOfSub line (strL "=") < rIdxOfChar line '"') &&
  !containsL (afterLastEq line) (strL ".") &&
  !containsL (afterLastEq line) (strL "CreateObject")

/-- One line of the first pass: collect external declarations, change
callbacks, and tracked assignment entries. -/
def scanStep (st : ScanSt) (line : Line) : ScanSt :=
  let efs :=
    if containsL line (strL "Declare") && containsL line (strL "Lib") then
      st.externalFuncs ++ [pyStrip line]
    else st.externalFuncs
  let cbs :=
    if containsL line (strL "Sub ") && containsL line (strL "_Change(") then
      st.changeCallbacks ++ [changeName line]
    else st.changeCallbacks
  let n := st.lineNum + 1
  { lineNum := n, externalFuncs := efs, changeCallbacks := cbs,
    entries := st.entries ++
      (if trackedLine line efs then
        (findAssignNames line).map (fun v => (v, n))
      else []) }

/-- The whole first pass over the macro's lines. -/
def scanLines (ls : List Line) : ScanSt :=
  ls.foldl scanStep { lineNum := 0, externalFuncs := [],
                      changeCallbacks := [], entries := [] }

/-- The loose reference check: a tracked name is referenced when it contains
a dot, occurs on a line other than its own assignment lines, or matches a
change-callback name in either substring direction. -/
def refB (ls : List Line) (cbs : List Line) (entries : List (Line × Nat))
    (v : Line) : Bool :=
  containsL v (strL ".") ||
  (ls.enum.any (fun p =>
    !(decide ((v, p.1 + 1) ∈ entries)) && containsL p.2 v)) ||
  (cbs.any (fun c => containsL v c || containsL c v))

/-- `comment_lines` of the source as a predicate: line `n` is stripped when
some tracked assignment lands on it and no name assigned on it is
referenced. -/
def commentLineB (ls : List Line) (n : Nat) : Bool :=
  let st := scanLines ls
  (st.entries.any (fun e => e.2 == n)) &&
  (st.entries.all (fun e =>
    !(e.2 == n) || !refB ls st.changeCallbacks st.entries e.1))

/-- State of the rewriting loop of `strip_useless_code`. -/
structure StripSt where
  lineNum : Nat
  ifCount : Int
  acc : List Line

/-- The `Application.Run` repair guard of the rewriting loop: stripped line
starts with `Application.Run`, exactly two double quotes, stripped line ends
with a double quote. -/
def appRunGuard (line : Line) : Bool :=
  startsWithL (pyStrip line) (strL "Application.Run") &&
  line.count '"' == 2 &&
  endsWithL (pyStrip line) (strL "\"")

/-- The `Application.Run` repair of the source: delete the quotes and every
occurrence of `Application.Run`, then prepend `WScript.Shell ` when the
comma-split has more than one field and the stripped first field has no
space. -/
def appRunFix (line : Line) : Line :=
  let l2 := replaceL (replaceL line (strL "\"") []) (strL "Application.Run") []
  let fields := splitOnChar ',' l2
  if fields.length > 1 && !containsL (pyStrip (fields.headD [])) (strL " ")
  then strL "WScript.Shell " ++ l2 else l2

/-- The amended-specification reading of the `Application.Run` repair,
written from the corrected claim text: delete every double quote and every
occurrence of `Application.Run`; prepend `WScript.Shell ` exactly when the
result has at least two comma-separated fields and the first field,
stripped, contains no space. -/
def appRunSpec (line : Line) : Line :=
  let base := replaceL (replaceL line (strL "\"") []) (strL "Application.Run") []
  if 2 ≤ (splitOnChar ',' base).length ∧
     ¬ containsL (pyStrip ((splitOnChar ',' base).headD [])) (strL " ") = true
  then strL "WScript.Shell " ++ base else base

/-- The tail of one iteration of the rewriting loop, after the `If`/`End If`
counting: strip dead assignments, useless calls and useless dims, split
trailing `End Function`, repair `Application.Run` lines, else keep the line. -/
def stripRest (cl : Nat → Bool) (n : Nat) (ic : Int) (acc : List Line)
    (line sl : Line) : StripSt :=
  if cl n && !startsWithL sl (strL "Function ") &&
     !startsWithL sl (strL "Sub ") && !startsWithL sl (strL "End Sub") &&
     !startsWithL sl (strL "End Function") then
    { lineNum := n, ifCount := ic, acc := acc }
  else if is_useless_call line then
    { lineNum := n, ifCount := ic, acc := acc }
  else if is_useless_dim line then
    { lineNum := n, ifCount := ic, acc := acc }
  else if endsWithL line (strL "End Function") && line.length > 12 then
    { lineNum := n, ifCount := ic,
      acc := acc ++ [replaceL line (strL "End Function") [],
                     strL "End Function"] }
  else
    let line2 := if appRunGuard line then appRunFix line else line
    { lineNum := n, ifCount := ic, acc := acc ++ [line2] }

/-- One iteration of the rewriting loop of `strip_useless_code`, including
the `If`-counting and the unmatched-`End If` repair. -/
def stripStep (cl : Nat → Bool) (st : StripSt) (line : Line) : StripSt :=
  let n := st.lineNum + 1
  let sl := pyStrip line
  let ic1 : Int :=
    if startsWithL sl (strL "If ") then st.ifCount + 1 else st.ifCount
  if startsWithL sl (strL "End If") then
    if ic1 - 1 < 0 then
      { lineNum := n, ifCount := 0, acc := st.acc ++ [strL "End Function"] }
    else stripRest cl n (ic1 - 1) st.acc line sl
  else stripRest cl n ic1 st.acc line sl

/-- The whole rewriting loop: the lines emitted into `r`. -/
def stripLines (cl : Nat → Bool) (ls : List Line) : List Line :=
  (ls.foldl (stripStep cl) { lineNum := 0, ifCount := 0, acc := [] }).acc

/-- State of `collapse_macro_if_blocks`: `blocks` is `curr_blocks` (`none`
when not inside a `#If`), `currBlock` is `curr_block`, `acc` the emitted
lines. -/
structure CollapseSt where
  blocks : Option (List (List Line))
  currBlock : List Line
  acc : List Line

/-- `for block in curr_blocks: if len(block) > len(biggest_block)`: the
earliest block of maximal length. -/
def biggestBlock (bs : List (List Line)) : List Line :=
  bs.foldl (fun best b => if best.length < b.length then b else best) []

/-- One line of `collapse_macro_if_blocks`. -/
def collapseStep (st : CollapseSt) (line : Line) : CollapseSt :=
  let sl := pyStrip line
  match st.blocks with
  | none =>
    if startsWithL sl (strL "#If") then
      { blocks := some [], currBlock := [], acc := st.acc }
    else { st with acc := st.acc ++ [line] }
  | some bs =>
    if startsWithL sl (strL "#Else") || startsWithL sl (strL "Else") then
      { blocks := some (bs ++ [st.currBlock]), currBlock := [], acc := st.acc }
    else if startsWithL sl (strL "#End") then
      { blocks := none, currBlock := [],
        acc := st.acc ++ biggestBlock (bs ++ [st.currBlock]) }
    else { st with currBlock := st.currBlock ++ [line] }

/-- The lines emitted by `collapse_macro_if_blocks` (a block still open at
end of input is dropped, as in the source). -/
def collapseLines (ls : List Line) : List Line :=
  (ls.foldl collapseStep { blocks := none, currBlock := [], acc := [] }).acc

/-- `collapse_macro_if_blocks` on raw character data. -/
def collapseCore (cs : Line) : Line := joinNL (collapseLines (splitLines cs))

/-- `collapse_macro_if_blocks(vba_code)` from the source. -/
def collapse_macro_if_blocks (s : String) : String := ⟨collapseCore s.data⟩

/-- `strip_useless_code` on raw character data: scan assignments, rewrite
the lines, then collapse `#If` blocks. -/
def stripCore (cs : Line) : Line :=
  let ls := splitLines cs
  collapseCore (joinNL (stripLines (fun n => commentLineB ls n) ls))

/-- `strip_useless_code(vba_code)` from the source. -/
def strip_useless_code (s : String) : String := ⟨stripCore s.data⟩

/-!  The stream driver `parse_stream` / `parse_streams_serial`.  The long
line collapser and `filter_vba` live in external packages, and the pyparsing
grammar is external too; they are parameters.  A parse failure is an
`Except.error` carrying the failing source line, column and message. -/

/-- The data pyparsing's `ParseException` exposes to `parse_stream`. -/
structure ParseErr where
  line : String
  column : Nat
  msg : String

/-- The result of parsing one stream: the string sentinel `"empty"` or a
parsed module (handle plus the normalized code attached as `m.code`). -/
inductive ParsedModule where
  | empty : ParsedModule
  | mod : Nat → String → ParsedModule
deriving DecidableEq

/-- The normalization applied by `parse_stream` before parsing: collapse
long lines, filter cruft, optionally strip useless code. -/
def normalizeStream (collapseFn filterFn : String → String)
    (strip_useless : Bool) (vba_code : String) : String :=
  let c1 := collapseFn vba_code
  let c2 := filterFn c1
  if strip_useless then strip_useless_code c2 else c2

/-- `parse_stream` from the source: report `(empty macro)` and the sentinel
for whitespace-only code; otherwise parse `code + "\n"`, and on failure
print the offending line, a caret under the failing column and the
diagnostic, returning `none`.  The first component is the failure-relevant
console output. -/
def parse_stream (collapseFn filterFn : String → String)
    (parser : String → Except ParseErr Nat) (strip_useless : Bool)
    (vba_code : String) : List String × Option ParsedModule :=
  let code := normalizeStream collapseFn filterFn strip_useless vba_code
  if (⟨pyStrip code.data⟩ : String) = "" then
    (["(empty macro)"], some ParsedModule.empty)
  else
    match parser (code ++ "\n") with
    | Except.ok m => ([], some (ParsedModule.mod m code))
    | Except.error err =>
      ([err.line, caretLine err.column, err.msg,
        "Parse Error. Processing Aborted."], none)

/-- `parse_streams_serial` from the source: `if (m is None): return None`
— the first failing stream makes the whole document's parse `None`. -/
def parse_streams_serial (collapseFn filterFn : String → String)
    (parser : String → Except ParseErr Nat) (strip_useless : Bool) :
    List String → Option (List ParsedModule)
  | [] => some []
  | c :: rest =>
    match (parse_stream collapseFn filterFn parser strip_useless c).2 with
    | none => none
    | some m =>
      (parse_streams_serial collapseFn filterFn parser strip_useless
        rest).map (fun r => m :: r)

/-- The module filter of `process_file`:
`for m in comp_modules: if (m != "empty"): vm.add_compiled_module(m)`. -/
def add_compiled_modules (ms : List ParsedModule) : List ParsedModule :=
  ms.filter (fun m => !(m = ParsedModule.empty))

/-!  `process_file`.  Everything it calls that can raise is abstracted into
an oracle; the wiring of its `try`/`except` blocks is transcribed from the
source.  Document variables, custom properties and the document text
cannot raise (their readers swallow their own exceptions and return
defaults), so they do not appear. -/

/-- Outcomes of the fallible steps inside `process_file`'s outer `try`. -/
structure PFOracle where
  /-- `VBA_Parser(...)` plus `vba.detect_vba_macros()`. -/
  detect : Except String Bool
  /-- `ole.get_metadata()`; its surrounding inner `try` only logs, so a
  failure here never affects the result. -/
  metadata : Except String Unit
  /-- `parse_streams(vba, strip_useless)`: `none` models the `None` that a
  parse failure turns into, an `error` models a raised exception. -/
  parseResult : Except String (Option (List ParsedModule))
  /-- the form-string extraction; its inner handler prints a stack trace and
  re-raises. -/
  formVars : Except String Unit
  /-- `vm.trace()` and the action dump, producing `vm.actions`. -/
  traceResult : Except String (List String)

/-- Python `"SystemExit" in str(e)`. -/
def strContainsS (s sub : String) : Bool := containsL s.data sub.data

/-- The body of `process_file`'s outer `try`: the Bool records whether an
inner handler already printed a stack trace (only the form-string handler
does, before re-raising). -/
def runBody (o : PFOracle) : Bool × Except String (Option (List String)) :=
  match o.detect with
  | Except.error e => (false, Except.error e)
  | Except.ok false => (false, Except.ok (some []))
  | Except.ok true =>
    match o.parseResult with
    | Except.error e => (false, Except.error e)
    | Except.ok none => (false, Except.ok none)
    | Except.ok (some mods) =>
      let _ := add_compiled_modules mods
      match o.formVars with
      | Except.error e => (true, Except.error e)
      | Except.ok _ =>
        match o.traceResult with
        | Except.error e => (false, Except.error e)
        | Except.ok acts => (false, Except.ok (some acts))

/-- `process_file` from the source: the outer handler prints a stack trace
unless the exception's string mentions `SystemExit`, and returns `None`.
Result: (was a stack trace printed, per-document result). -/
def process_file (o : PFOracle) : Bool × Option (List String) :=
  match runBody o with
  | (tr, Except.ok r) => (tr, r)
  | (tr, Except.error e) => (tr || !strContainsS e "SystemExit", none)

/-!  Concrete fixtures used by counterexamples and witnesses.  -/

/-- A parser that accepts exactly the text `"good\n"`. -/
def cexParser : String → Except ParseErr Nat := fun s =>
  if s = "good\n" then Except.ok 1
  else Except.error { line := "bad", column := 1, msg := "Expected end of text" }

/-- An oracle whose trace step raises an exception whose string mentions
`SystemExit`. -/
def cexOracle : PFOracle :=
  { detect := Except.ok true, metadata := Except.ok (),
    parseResult := Except.ok (some []), formVars := Except.ok (),
    traceResult := Except.error "SystemExit code 0" }

/-- An oracle on which every step succeeds. -/
def okOracle : PFOracle :=
  { detect := Except.ok true, metadata := Except.ok (),
    parseResult := Except.ok (some []), formVars := Except.ok (),
    traceResult := Except.ok ["Execute Command"] }

/-!  # Claim C2: idempotence of the normalizer  -/

/-- C2 counterexample: the normalizer is not idempotent.  Already on the
empty input, `strip_useless_code (strip_useless_code "")` differs from
`strip_useless_code ""`. -/
theorem C2_cex :
    ¬ (strip_useless_code (strip_useless_code "") = strip_useless_code "") := by
  decide

/-- C2 (amended): the normalizer is not idempotent — every pass emits each
kept line with a trailing newline and re-splitting its output produces an
extra empty line, so repetition grows the text: one pass on `""` yields
`"\n\n"`, a second pass yields `"\n\n\n\n"`. -/
theorem C2_thm :
    strip_useless_code "" = "\n\n" ∧
    strip_useless_code "\n\n" = "\n\n\n\n" := by
  constructor <;> decide

/-!  # Counterexamples for C1, C3, C4, C5, C6, C8, C9  -/

/-- C1 counterexample: with the default serial driver, a parse failure in
the first stream makes `parse_streams_serial` return `None` for the whole
document even though the second stream parses on its own — the other
streams do not continue. -/
theorem C1_cex :
    parse_streams_serial id id cexParser false ["bad", "good"] = none ∧
    (parse_stream id id cexParser false "good").2 =
      some (ParsedModule.mod 1 "good") := by
  constructor <;> decide

/-- C3 counterexample: a line beginning with plain `Else` inside a `#If`
arm is treated as an arm separator, so the five-line arm
`If y Then / a / Else / b / End If` is not kept verbatim — the collapse
keeps only `If y Then / a` and also deletes the `Else` line. -/
theorem C3_cex :
    collapse_macro_if_blocks
      "#If X Then\nIf y Then\na\nElse\nb\nEnd If\n#Else\nz\n#End If" =
    "If y Then\na\n" := by
  decide

/-- C4 counterexample: an assignment line naming the tracked interesting
builtin `Environ` is removed by `strip_useless_code` when it sits in a
non-largest `#If` arm, so the stripped output can lose interesting calls. -/
theorem C4_cex :
    strip_useless_code "#If X Then\ns = Environ(2)\n#Else\na\nb\n#End If" =
      "a\nb\n\n" ∧
    is_interesting_call (strL "s = Environ(2)") [] = true ∧
    containsL (strip_useless_code
      "#If X Then\ns = Environ(2)\n#Else\na\nb\n#End If").data
      (strL "Environ") = false := by
  refine ⟨by decide, by decide, by decide⟩

/-- C5 counterexample: the `Application.Run` repair deletes the double
quotes, so the string literal `"x, y z"` of a kept (rewritten) line does
not survive into the normalized output — no quote character remains at
all. -/
theorem C5_cex :
    strip_useless_code "Application.Run \"x, y z\"" =
      "WScript.Shell  x, y z\n\n" ∧
    containsL (strip_useless_code "Application.Run \"x, y z\"").data
      (strL "\"") = false := by
  constructor <;> decide

/-- C6 counterexample: an internal error whose string mentions `SystemExit`
makes `process_file` return `None` *without* printing a stack trace,
contradicting the claim that a stack trace is printed on any internal
error. -/
theorem C6_cex : process_file cexOracle = (false, none) := by
  decide

/-- C8 counterexample: `Application.Run "foo"` starts with
`Application.Run` and has exactly two double quotes, its first
comma-separated field `foo` has no space, yet the emitted line is
`" foo"` with no `WScript.Shell ` prepended (the source also requires a
comma-split with more than one field). -/
theorem C8_cex :
    strip_useless_code "Application.Run \"foo\"" = " foo\n\n" ∧
    startsWithL (strip_useless_code "Application.Run \"foo\"").data
      (strL "WScript") = false := by
  constructor <;> decide

/-- C9 counterexample: `Dim ByteCount` declares no `Byte`/`Integer`/`Long`
type, has no initializer, compound or continuation, yet it is kept — the
source tests for the substring `Byte`, which also occurs in the plain
variable name `ByteCount`. -/
theorem C9_cex :
    strip_useless_code "Dim ByteCount" = "Dim ByteCount\n\n" := by
  decide

/-!  # Claim C1: parse failure handling  -/

/-- C1 (amended): on a parse failure `parse_stream` prints the offending
source line, a caret under the failing column and the parser's diagnostic,
and returns `None`; but the default serial driver then aborts the whole
document — `parse_streams_serial` returns `None`, so the other streams'
results are discarded (only the parallel driver keeps them). -/
theorem C1_thm :
    (∀ (cf ff : String → String) (p : String → Except ParseErr Nat)
       (su : Bool) (code : String) (err : ParseErr),
       ¬ ((⟨pyStrip (normalizeStream cf ff su code).data⟩ : String) = "") →
       p (normalizeStream cf ff su code ++ "\n") = Except.error err →
       parse_stream cf ff p su code =
         ([err.line, caretLine err.column, err.msg,
           "Parse Error. Processing Aborted."], none)) ∧
    (∀ (cf ff : String → String) (p : String → Except ParseErr Nat)
       (su : Bool) (code : String) (rest : List String),
       (parse_stream cf ff p su code).2 = none →
       parse_streams_serial cf ff p su (code :: rest) = none) := by
  constructor
  · intro cf ff p su code err h1 h2
    simp only [parse_stream]
    rw [if_neg h1, h2]
  · intro cf ff p su code rest h
    simp only [parse_streams_serial]
    rw [h]

/-- C1 witness: a concrete failing parse at column 3 produces the line, the
caret and the diagnostic, and aborts the two-stream document. -/
theorem C1_wit :
    parse_stream id id
      (fun _ => Except.error { line := "bad", column := 3, msg := "diag" })
      false "bad" =
      (["bad", caretLine 3, "diag", "Parse Error. Processing Aborted."],
       none) ∧
    parse_streams_serial id id
      (fun _ => Except.error { line := "bad", column := 3, msg := "diag" })
      false ["bad", "x"] = none :=
  ⟨C1_thm.1 id id _ false "bad" _ (by decide) rfl,
   C1_thm.2 id id _ false "bad" ["x"] (by decide)⟩

/-!  # Claim C6: the per-document entry point  -/

/-- C6 (amended): `process_file` turns every raised error into the result
`None` (and a documentless file into `[]`); a stack trace is printed for
such an error unless its string mentions `SystemExit`, the form-string
handler printing one itself before re-raising. -/
theorem C6_thm :
    (∀ o : PFOracle, o.detect = Except.ok false →
       process_file o = (false, some [])) ∧
    (∀ (o : PFOracle) (e : String) (tr : Bool),
       runBody o = (tr, Except.error e) →
       process_file o = (tr || !strContainsS e "SystemExit", none)) ∧
    (∀ (o : PFOracle) (ms : List ParsedModule) (e : String),
       o.detect = Except.ok true → o.parseResult = Except.ok (some ms) →
       o.formVars = Except.error e → (process_file o).1 = true) := by
  refine ⟨?_, ?_, ?_⟩
  · intro o h
    simp only [process_file, runBody]
    rw [h]
  · intro o e tr h
    simp only [process_file]
    rw [h]
  · intro o ms e h1 h2 h3
    simp only [process_file, runBody]
    rw [h1, h2, h3]
    simp

/-- C6 witness: no macros yields `some []`; an ordinary error yields `None`
with a printed trace; a form-string error always prints a trace. -/
theorem C6_wit :
    process_file { detect := Except.ok false, metadata := Except.ok (),
                   parseResult := Except.ok none, formVars := Except.ok (),
                   traceResult := Except.ok [] } = (false, some []) ∧
    process_file { cexOracle with traceResult := Except.error "boom" } =
      (true, none) ∧
    (process_file { okOracle with formVars := Except.error "fail" }).1 =
      true := by
  refine ⟨C6_thm.1 _ rfl, ?_, C6_thm.2.2 _ [] "fail" rfl rfl rfl⟩
  have h := C6_thm.2.1 { cexOracle with traceResult := Except.error "boom" }
    "boom" false rfl
  rw [h]
  decide

/-!  # Claim C10: empty macro streams  -/

/-- C10: a stream whose normalized code strips to the empty string makes
`parse_stream` return the sentinel `"empty"` (not `None`, not a module);
`process_file`'s module filter drops the sentinel; and such a stream never
aborts the serial parse — the document's result is the remaining streams'
result with the sentinel prepended. -/
theorem C10_thm :
    (∀ (cf ff : String → String) (p : String → Except ParseErr Nat)
       (su : Bool) (code : String),
       (⟨pyStrip (normalizeStream cf ff su code).data⟩ : String) = "" →
       parse_stream cf ff p su code =
         (["(empty macro)"], some ParsedModule.empty)) ∧
    (∀ ms : List ParsedModule,
       ParsedModule.empty ∉ add_compiled_modules ms) ∧
    (∀ (cf ff : String → String) (p : String → Except ParseErr Nat)
       (su : Bool) (code : String) (rest : List String),
       (⟨pyStrip (normalizeStream cf ff su code).data⟩ : String) = "" →
       parse_streams_serial cf ff p su (code :: rest) =
         (parse_streams_serial cf ff p su rest).map
           (fun r => ParsedModule.empty :: r)) := by
  refine ⟨?_, ?_, ?_⟩
  · intro cf ff p su code h
    simp only [parse_stream]
    rw [if_pos h]
  · intro ms h
    simp [add_compiled_modules] at h
  · intro cf ff p su code rest h
    have h2 : (parse_stream cf ff p su code).2 = some ParsedModule.empty := by
      simp only [parse_stream]
      rw [if_pos h]
    simp only [parse_streams_serial]
    rw [h2]

/-- C10 witness: the empty stream, normalized with stripping enabled, is
reported as the sentinel; the sentinel is filtered away from the compiled
modules; a document starting with an empty stream is not aborted. -/
theorem C10_wit :
    parse_stream id id (fun _ => Except.ok 0) true "" =
      (["(empty macro)"], some ParsedModule.empty) ∧
    ParsedModule.empty ∉
      add_compiled_modules [ParsedModule.empty, ParsedModule.mod 1 "x"] ∧
    parse_streams_serial id id (fun _ => Except.ok 0) true ["", "x = 1"] =
      (parse_streams_serial id id (fun _ => Except.ok 0) true
        ["x = 1"]).map (fun r => ParsedModule.empty :: r) :=
  ⟨C10_thm.1 id id _ true "" (by decide),
   C10_thm.2.1 _,
   C10_thm.2.2 id id _ true "" ["x = 1"] (by decide)⟩

/-!  # Structural helper lemmas about the string primitives  -/

/-- Two prefixes of the same line are comparable; incomparable patterns
cannot both start it. -/
theorem not_startsWith_both (s p q : Line) (h1 : ¬ p <+: q) (h2 : ¬ q <+: p)
    (hp : startsWithL s p = true) (hq : startsWithL s q = true) : False := by
  rw [startsWithL, List.isPrefixOf_iff_prefix] at hp hq
  rcases List.prefix_or_prefix_of_prefix hp hq with h | h
  exacts [h1 h, h2 h]

/-- A line is its stripped core surrounded by whitespace. -/
theorem strip_decomp (l : Line) :
    ∃ a b, l = a ++ pyStrip l ++ b ∧ (∀ c ∈ a, isPySpace c = true) ∧
      (∀ c ∈ b, isPySpace c = true) := by
  refine ⟨l.takeWhile isPySpace,
    ((l.dropWhile isPySpace).reverse.takeWhile isPySpace).reverse, ?_, ?_, ?_⟩
  · have h2 : (l.dropWhile isPySpace) =
        ((l.dropWhile isPySpace).reverse.dropWhile isPySpace).reverse ++
        ((l.dropWhile isPySpace).reverse.takeWhile isPySpace).reverse := by
      rw [← List.reverse_append, List.takeWhile_append_dropWhile,
        List.reverse_reverse]
    conv_lhs => rw [← List.takeWhile_append_dropWhile (p := isPySpace) (l := l)]
    rw [pyStrip, List.append_assoc]
    exact congrArg _ h2
  · intro c hc; exact List.mem_takeWhile_imp hc
  · intro c hc
    rw [List.mem_reverse] at hc
    exact List.mem_takeWhile_imp hc

/-- Substring containment produces an explicit decomposition. -/
theorem containsL_spec (l p : Line) (h : containsL l p = true) :
    ∃ a b, l = a ++ p ++ b := by
  induction l with
  | nil =>
    refine ⟨[], [], ?_⟩
    rw [containsL, containsLAux, List.isEmpty_iff] at h
    simp [h]
  | cons c tl ih =>
    rw [containsL, containsLAux, Bool.or_eq_true] at h
    rcases h with h | h
    · rw [List.isPrefixOf_iff_prefix] at h
      obtain ⟨t, ht⟩ := h
      exact ⟨[], t, by simp [← ht]⟩
    · obtain ⟨a, b, hab⟩ := ih h
      exact ⟨c :: a, b, by simp [hab]⟩

/-- The empty pattern is contained everywhere. -/
theorem containsLAux_nil_pat (b : Line) : containsLAux [] b = true := by
  induction b with
  | nil => rfl
  | cons c tl ih => simp [containsLAux, ih]

/-- A pattern starting a line is contained in it. -/
theorem containsLAux_prefix (p s : Line) (h : p.isPrefixOf s = true) :
    containsLAux p s = true := by
  cases s with
  | nil =>
    cases p with
    | nil => rfl
    | cons c tl => simp [List.isPrefixOf] at h
  | cons c tl => simp [containsLAux, h]

/-- Conversely, a decomposition witnesses containment. -/
theorem containsL_of_parts (l p a b : Line) (h : l = a ++ p ++ b) :
    containsL l p = true := by
  subst h
  induction a with
  | nil =>
    simp only [List.nil_append, containsL]
    cases p with
    | nil => simpa using containsLAux_nil_pat b
    | cons c tl =>
      apply containsLAux_prefix
      rw [List.isPrefixOf_iff_prefix]
      exact List.prefix_append _ _
  | cons c a ih =>
    simp only [containsL, List.cons_append, List.append_assoc] at ih ⊢
    simp [containsLAux, ih]

/-- The chars of the space-stripped line decompose along the stripped
core: if the stripped line starts with `q`, the space-free line is
non-space whitespace, then the space-free `q`, then a tail. -/
theorem strip_prefix_ns (l q : Line) (hq : startsWithL (pyStrip l) q = true) :
    ∃ A Z, (∀ c ∈ A, isPySpace c = true ∧ ¬ c = ' ') ∧
      removeSpaces l = A ++ removeSpaces q ++ Z := by
  obtain ⟨a, b, hl, ha, hb⟩ := strip_decomp l
  rw [startsWithL, List.isPrefixOf_iff_prefix] at hq
  obtain ⟨t, ht⟩ := hq
  refine ⟨removeSpaces a, removeSpaces t ++ removeSpaces b, ?_, ?_⟩
  · intro c hc
    rw [removeSpaces, List.mem_filter] at hc
    refine ⟨ha c hc.1, ?_⟩
    have := hc.2
    simpa using this
  · conv_lhs => rw [hl, ← ht]
    simp [removeSpaces, List.filter_append, List.append_assoc]

/-- Shape of a line accepted by `is_useless_call`: its space-free form is
one of the five function names followed by an opening parenthesis. -/
theorem uc_shape (l : Line) (h : is_useless_call l = true) :
    ∃ f r, (f = strL "Cos" ∨ f = strL "Log" ∨ f = strL "Exp" ∨
            f = strL "Sin" ∨ f = strL "Tan") ∧
      removeSpaces l = f ++ '(' :: r := by
  rw [is_useless_call] at h
  split at h
  · exact absurd h (by simp)
  · split at h
    · exact absurd h (by simp)
    · rename_i hEq hPar
      have hpar : containsL l (strL "(") = true := by
        revert hPar
        cases containsL l (strL "(") <;> simp
      obtain ⟨a, b, hab⟩ := containsL_spec l _ hpar
      have hmem : '(' ∈ removeSpaces l := by
        rw [removeSpaces, List.mem_filter]
        exact ⟨by simp [hab, strL], by decide⟩
      have hne : (removeSpaces l).dropWhile (fun c => !(c = '(')) ≠ [] := by
        intro hnil
        have := (List.dropWhile_eq_nil_iff).1 hnil '(' hmem
        simp at this
      have hhead :
          ((removeSpaces l).dropWhile (fun c => !(c = '('))).head hne = '(' := by
        have := List.head_dropWhile_not (fun c => !(c = '(')) (removeSpaces l)
          hne
        simpa using this
      obtain ⟨r, hr⟩ : ∃ r,
          (removeSpaces l).dropWhile (fun c => !(c = '(')) = '(' :: r := by
        refine ⟨((removeSpaces l).dropWhile (fun c => !(c = '('))).tail, ?_⟩
        have h0 := (List.head_cons_tail _ hne).symm
        rw [hhead] at h0
        exact h0
      refine ⟨(removeSpaces l).takeWhile (fun c => !(c = '(')), r, ?_, ?_⟩
      · simpa [Bool.or_eq_true, decide_eq_true_eq, or_assoc] using h
      · conv_lhs => rw [← List.takeWhile_append_dropWhile
          (p := fun c => !(c = '(')) (l := removeSpaces l)]
        rw [hr]

/-- A run of non-space whitespace followed by a non-whitespace head cannot
equal a list starting with a different non-whitespace character. -/
theorem ws_append_cons (A X Y : Line) (c d : Char)
    (hA : ∀ x ∈ A, isPySpace x = true ∧ ¬ x = ' ')
    (he : A ++ c :: X = d :: Y) (hd : isPySpace d = false) :
    c = d ∧ X = Y := by
  cases A with
  | nil =>
    rw [List.nil_append] at he
    injection he with h1 h2
    exact ⟨h1, h2⟩
  | cons a A2 =>
    rw [List.cons_append] at he
    injection he with h1 h2
    have ha := (hA a (List.mem_cons_self _ _)).1
    rw [h1, hd] at ha
    exact absurd ha (by simp)

/-- A line accepted by `is_useless_call` cannot strip to something starting
with `If `. -/
theorem uc_not_If (l : Line) (h : is_useless_call l = true) :
    startsWithL (pyStrip l) (strL "If ") = false := by
  cases hcon : startsWithL (pyStrip l) (strL "If ") with
  | false => rfl
  | true =>
    exfalso
    obtain ⟨A, Z, hA, hns⟩ := strip_prefix_ns l _ hcon
    obtain ⟨f, r, hf, hns2⟩ := uc_shape l h
    rw [hns] at hns2
    have hq : removeSpaces (strL "If ") = 'I' :: 'f' :: [] := by decide
    rw [hq] at hns2
    simp only [List.append_assoc, List.cons_append, List.nil_append] at hns2
    rcases hf with hf | hf | hf | hf | hf <;> subst hf <;>
      exact absurd (ws_append_cons A _ _ _ _ hA hns2 (by decide)).1 (by decide)

/-- A line accepted by `is_useless_call` cannot strip to something starting
with `End If`. -/
theorem uc_not_EndIf (l : Line) (h : is_useless_call l = true) :
    startsWithL (pyStrip l) (strL "End If") = false := by
  cases hcon : startsWithL (pyStrip l) (strL "End If") with
  | false => rfl
  | true =>
    exfalso
    obtain ⟨A, Z, hA, hns⟩ := strip_prefix_ns l _ hcon
    obtain ⟨f, r, hf, hns2⟩ := uc_shape l h
    rw [hns] at hns2
    have hq : removeSpaces (strL "End If") =
        'E' :: 'n' :: 'd' :: 'I' :: 'f' :: [] := by decide
    rw [hq] at hns2
    simp only [List.append_assoc, List.cons_append, List.nil_append] at hns2
    rcases hf with hf | hf | hf | hf | hf <;> subst hf
    · exact absurd (ws_append_cons A _ _ _ _ hA hns2 (by decide)).1 (by decide)
    · exact absurd (ws_append_cons A _ _ _ _ hA hns2 (by decide)).1 (by decide)
    · have h2 := (ws_append_cons A _ _ _ _ hA hns2 (by decide)).2
      injection h2 with h3 h4
      exact absurd h3 (by decide)
    · exact absurd (ws_append_cons A _ _ _ _ hA hns2 (by decide)).1 (by decide)
    · exact absurd (ws_append_cons A _ _ _ _ hA hns2 (by decide)).1 (by decide)

/-- A line whose strip starts with `Dim ` is not a useless call. -/
theorem uc_not_Dim (l : Line)
    (hd : startsWithL (pyStrip l) (strL "Dim ") = true) :
    is_useless_call l = false := by
  cases h : is_useless_call l with
  | false => rfl
  | true =>
    exfalso
    obtain ⟨A, Z, hA, hns⟩ := strip_prefix_ns l _ hd
    obtain ⟨f, r, hf, hns2⟩ := uc_shape l h
    rw [hns] at hns2
    have hq : removeSpaces (strL "Dim ") = 'D' :: 'i' :: 'm' :: [] := by
      decide
    rw [hq] at hns2
    simp only [List.append_assoc, List.cons_append, List.nil_append] at hns2
    rcases hf with hf | hf | hf | hf | hf <;> subst hf <;>
      exact absurd (ws_append_cons A _ _ _ _ hA hns2 (by decide)).1 (by decide)

/-- A line whose strip starts with `Application.Run` is not a useless call. -/
theorem uc_not_AppRun (l : Line)
    (hd : startsWithL (pyStrip l) (strL "Application.Run") = true) :
    is_useless_call l = false := by
  cases h : is_useless_call l with
  | false => rfl
  | true =>
    exfalso
    obtain ⟨A, Z, hA, hns⟩ := strip_prefix_ns l _ hd
    obtain ⟨f, r, hf, hns2⟩ := uc_shape l h
    rw [hns] at hns2
    have hq : removeSpaces (strL "Application.Run") =
        'A' :: strL "pplication.Run" := by decide
    rw [hq] at hns2
    simp only [List.append_assoc, List.cons_append, List.nil_append] at hns2
    rcases hf with hf | hf | hf | hf | hf <;> subst hf <;>
      exact absurd (ws_append_cons A _ _ _ _ hA hns2 (by decide)).1 (by decide)

/-- The tail of the rewriting step never changes the recorded line number. -/
theorem stripRest_lineNum (cl : Nat → Bool) (n : Nat) (ic : Int)
    (acc : List Line) (line sl : Line) :
    (stripRest cl n ic acc line sl).lineNum = n := by
  rw [stripRest]
  repeat' split
  all_goals rfl

/-- The tail of the rewriting step never changes the `If` counter. -/
theorem stripRest_ifCount (cl : Nat → Bool) (n : Nat) (ic : Int)
    (acc : List Line) (line sl : Line) :
    (stripRest cl n ic acc line sl).ifCount = ic := by
  rw [stripRest]
  repeat' split
  all_goals rfl

/-- A strip cannot start with both `If ` and `End If`. -/
theorem not_If_of_EndIf (s : Line)
    (h : startsWithL s (strL "End If") = true) :
    startsWithL s (strL "If ") = false := by
  cases hcon : startsWithL s (strL "If ") with
  | false => rfl
  | true =>
    exact (not_startsWith_both s _ _ (by decide) (by decide) hcon h).elim

/-- A strip cannot start with both `End If` and `If `. -/
theorem not_EndIf_of_If (s : Line)
    (h : startsWithL s (strL "If ") = true) :
    startsWithL s (strL "End If") = false := by
  cases hcon : startsWithL s (strL "End If") with
  | false => rfl
  | true =>
    exact (not_startsWith_both s _ _ (by decide) (by decide) h hcon).elim

/-!  # Claim C7: `If`/`End If` counting and the unmatched-`End If` repair  -/

/-- C7: the rewriting loop counts lines starting with `If ` up and lines
starting with `End If` down; an `End If` seen when the counter is already
zero (more closings than openings) is replaced by `End Function`; in
particular a lone `End If` input normalizes to `End Function`. -/
theorem C7_thm :
    (∀ (cl : Nat → Bool) (st : StripSt) (l : Line),
       startsWithL (pyStrip l) (strL "If ") = true →
       (stripStep cl st l).ifCount = st.ifCount + 1) ∧
    (∀ (cl : Nat → Bool) (st : StripSt) (l : Line),
       startsWithL (pyStrip l) (strL "End If") = true → 1 ≤ st.ifCount →
       (stripStep cl st l).ifCount = st.ifCount - 1) ∧
    (∀ (cl : Nat → Bool) (st : StripSt) (l : Line),
       startsWithL (pyStrip l) (strL "End If") = true → st.ifCount = 0 →
       stripStep cl st l =
         { lineNum := st.lineNum + 1, ifCount := 0,
           acc := st.acc ++ [strL "End Function"] }) ∧
    strip_useless_code "End If" = "End Function\n\n" := by
  refine ⟨?_, ?_, ?_, by decide⟩
  · intro cl st l h
    have hne := not_EndIf_of_If (pyStrip l) h
    simp [stripStep, h, hne, stripRest_ifCount]
  · intro cl st l h h1
    have hne := not_If_of_EndIf (pyStrip l) h
    have hlt : ¬ (st.ifCount - 1 < 0) := by omega
    simp [stripStep, h, hne, hlt, stripRest_ifCount]
  · intro cl st l h h0
    have hne := not_If_of_EndIf (pyStrip l) h
    simp [stripStep, h, hne, h0]

/-- C7 witness: the counter moves as claimed on concrete lines, and the
lone `End If` rewrites concretely. -/
theorem C7_wit :
    (stripStep (fun _ => false) ⟨0, 0, []⟩ (strL "If x Then")).ifCount =
      0 + 1 ∧
    (stripStep (fun _ => false) ⟨5, 2, []⟩ (strL "End If")).ifCount =
      2 - 1 ∧
    stripStep (fun _ => false) ⟨0, 0, []⟩ (strL "End If") =
      { lineNum := 0 + 1, ifCount := 0, acc := [] ++ [strL "End Function"] } ∧
    strip_useless_code "End If" = "End Function\n\n" :=
  ⟨C7_thm.1 _ _ _ (by decide),
   C7_thm.2.1 _ _ _ (by decide) (by decide),
   C7_thm.2.2.1 _ _ _ (by decide) rfl,
   C7_thm.2.2.2⟩

/-- Generic exclusion: a line starting with `p` cannot also start with an
incomparable `q`. -/
theorem startsWith_excl (s p q : Line) (h : startsWithL s p = true)
    (h1 : ¬ p <+: q) (h2 : ¬ q <+: p) : startsWithL s q = false := by
  cases hcon : startsWithL s q with
  | false => rfl
  | true => exact (not_startsWith_both s p q h1 h2 h hcon).elim

/-- A useless-call line is dropped by the rewriting tail. -/
theorem stripRest_drop_uc (cl : Nat → Bool) (n : Nat) (ic : Int)
    (acc : List Line) (line sl : Line) (h : is_useless_call line = true) :
    stripRest cl n ic acc line sl =
      { lineNum := n, ifCount := ic, acc := acc } := by
  simp [stripRest, h]

/-- A useless-dim line (that is not a useless call) is dropped by the
rewriting tail. -/
theorem stripRest_drop_ud (cl : Nat → Bool) (n : Nat) (ic : Int)
    (acc : List Line) (line sl : Line) (hud : is_useless_dim line = true)
    (huc : is_useless_call line = false) :
    stripRest cl n ic acc line sl =
      { lineNum := n, ifCount := ic, acc := acc } := by
  simp [stripRest, hud, huc]

/-- A useless dim strips to something starting with `Dim `. -/
theorem ud_strip_Dim (l : Line) (h : is_useless_dim l = true) :
    startsWithL (pyStrip l) (strL "Dim ") = true := by
  simp only [is_useless_dim, Bool.and_eq_true] at h
  exact h.1.1.1.1.1.1

/-!  # Claim C9: useless calls and useless dims  -/

/-- C9 (amended): the rewriting loop drops every line matched by
`is_useless_call` (a standalone `Cos`/`Log`/`Exp`/`Sin`/`Tan` call whose
value is discarded) and every line matched by `is_useless_dim`; a `Dim`
line that mentions `Byte`, `Long` or `Integer` is never a useless dim and
is kept verbatim by the rewriting loop whenever it is not a tracked dead
assignment and does not end in `End Function` — though a later `#If`
collapse may still discard it. -/
theorem C9_thm :
    (∀ (cl : Nat → Bool) (st : StripSt) (l : Line),
       is_useless_call l = true →
       stripStep cl st l =
         { lineNum := st.lineNum + 1, ifCount := st.ifCount,
           acc := st.acc }) ∧
    (∀ (cl : Nat → Bool) (st : StripSt) (l : Line),
       is_useless_dim l = true →
       stripStep cl st l =
         { lineNum := st.lineNum + 1, ifCount := st.ifCount,
           acc := st.acc }) ∧
    (∀ (cl : Nat → Bool) (st : StripSt) (l : Line),
       startsWithL (pyStrip l) (strL "Dim ") = true →
       (containsL (pyStrip l) (strL "Byte") ||
        containsL (pyStrip l) (strL "Long") ||
        containsL (pyStrip l) (strL "Integer")) = true →
       cl (st.lineNum + 1) = false →
       endsWithL l (strL "End Function") = false →
       stripStep cl st l =
         { lineNum := st.lineNum + 1, ifCount := st.ifCount,
           acc := st.acc ++ [l] }) := by
  refine ⟨?_, ?_, ?_⟩
  · intro cl st l h
    have hIf := uc_not_If l h
    have hEnd := uc_not_EndIf l h
    have hdrop := stripRest_drop_uc cl (st.lineNum + 1) st.ifCount st.acc l
      (pyStrip l) h
    simp only [stripStep, hIf, hEnd, Bool.false_eq_true, if_false]
    exact hdrop
  · intro cl st l h
    have hDim := ud_strip_Dim l h
    have hIf := startsWith_excl _ _ (strL "If ") hDim (by decide) (by decide)
    have hEnd := startsWith_excl _ _ (strL "End If") hDim (by decide)
      (by decide)
    have huc := uc_not_Dim l hDim
    have hdrop := stripRest_drop_ud cl (st.lineNum + 1) st.ifCount st.acc l
      (pyStrip l) h huc
    simp only [stripStep, hIf, hEnd, Bool.false_eq_true, if_false]
    exact hdrop
  · intro cl st l hDim htype hcl hef
    have hIf := startsWith_excl _ _ (strL "If ") hDim (by decide) (by decide)
    have hEnd := startsWith_excl _ _ (strL "End If") hDim (by decide)
      (by decide)
    have huc := uc_not_Dim l hDim
    have hud : is_useless_dim l = false := by
      simp only [Bool.or_eq_true] at htype
      rcases htype with (h | h) | h <;> simp [is_useless_dim, h]
    have hApp : appRunGuard l = false := by
      have h2 := startsWith_excl _ _ (strL "Application.Run") hDim
        (by decide) (by decide)
      simp [appRunGuard, h2]
    simp only [stripStep, hIf, hEnd, Bool.false_eq_true, if_false]
    rw [stripRest]
    rw [if_neg (by simp [hcl]), if_neg (by simp [huc]),
      if_neg (by simp [hud]), if_neg (by simp [hef])]
    simp [hApp]

/-- C9 witness: a discarded `Cos` call and a typeless `Dim` are dropped; a
`Byte` dim is kept verbatim. -/
theorem C9_wit :
    stripStep (fun _ => false) ⟨0, 0, []⟩ (strL "Cos(3)") = ⟨1, 0, []⟩ ∧
    stripStep (fun _ => false) ⟨0, 0, []⟩ (strL "Dim a, b") = ⟨1, 0, []⟩ ∧
    stripStep (fun _ => false) ⟨0, 0, []⟩ (strL "Dim a As Byte") =
      ⟨1, 0, [strL "Dim a As Byte"]⟩ :=
  ⟨C9_thm.1 _ _ _ (by decide), C9_thm.2.1 _ _ _ (by decide),
   C9_thm.2.2 _ _ _ (by decide) (by decide) rfl (by decide)⟩

/-- Variant of `ws_append_cons` needing only whitespace on the left run. -/
theorem wsOnly_append_cons (A X Y : Line) (c d : Char)
    (hA : ∀ x ∈ A, isPySpace x = true)
    (he : A ++ c :: X = d :: Y) (hd : isPySpace d = false) :
    c = d ∧ X = Y := by
  cases A with
  | nil =>
    rw [List.nil_append] at he
    injection he with h1 h2
    exact ⟨h1, h2⟩
  | cons a A2 =>
    rw [List.cons_append] at he
    injection he with h1 h2
    have ha := hA a (List.mem_cons_self _ _)
    rw [h1, hd] at ha
    exact absurd ha (by simp)

/-- A line whose strip ends in a double quote does not end in
`End Function` (trailing whitespace aside, the last characters differ). -/
theorem no_EndFunction_of_strip_quote (l : Line)
    (hq : endsWithL (pyStrip l) (strL "\"") = true) :
    endsWithL l (strL "End Function") = false := by
  cases hcon : endsWithL l (strL "End Function") with
  | false => rfl
  | true =>
    exfalso
    obtain ⟨a, b, hl, ha, hb⟩ := strip_decomp l
    rw [endsWithL, List.isPrefixOf_iff_prefix] at hcon hq
    obtain ⟨t, ht⟩ := hcon
    obtain ⟨s, hs⟩ := hq
    have hrev : l.reverse =
        b.reverse ++ ((pyStrip l).reverse ++ a.reverse) := by
      conv_lhs => rw [hl]
      simp [List.reverse_append, List.append_assoc]
    rw [← hs] at hrev
    have hcomb := (ht.trans hrev).symm
    have hEF : (strL "End Function").reverse =
        'n' :: (strL "End Function").reverse.tail := by decide
    rw [hEF] at hcomb
    have hq1 : (strL "\"").reverse = ['"'] := by decide
    rw [hq1] at hcomb
    simp only [List.cons_append, List.nil_append, List.append_assoc]
      at hcomb
    obtain ⟨hc, -⟩ := wsOnly_append_cons _ _ _ _ _
      (fun x hx => hb x (List.mem_reverse.1 hx)) hcomb (by decide)
    exact absurd hc (by decide)

/-- The source's `Application.Run` rewrite agrees with the amended
specification's description of it. -/
theorem appRunFix_eq_spec (l : Line) : appRunFix l = appRunSpec l := by
  simp only [appRunFix, appRunSpec]
  by_cases h1 : 1 <
      (splitOnChar ','
        (replaceL (replaceL l (strL "\"") []) (strL "Application.Run")
          [])).length
  · by_cases h2 : containsL
        (pyStrip
          ((splitOnChar ','
            (replaceL (replaceL l (strL "\"") []) (strL "Application.Run")
              [])).head?.getD []))
        (strL " ") = false
    · rw [if_pos (by simp [h1, h2]), if_pos ⟨h1, by simp [h2]⟩]
    · rw [if_neg (by simp [h1, h2]), if_neg (fun hc => h2 (by simpa using hc.2))]
  · rw [if_neg (by simp [h1]), if_neg (fun hc => h1 hc.1)]

/-!  # Claim C8: the `Application.Run` repair  -/

/-- C8 (amended): a line starting (after strip) with `Application.Run`,
containing exactly two double quotes **and ending (after strip) with a
double quote** is rewritten by deleting the quotes and the
`Application.Run` text; `WScript.Shell ` is prepended exactly when the
comma-split of the result has **at least two fields** and the stripped
first field contains no space.  Without the trailing quote the line is
kept verbatim. -/
theorem C8_thm :
    (∀ (cl : Nat → Bool) (st : StripSt) (l : Line),
       startsWithL (pyStrip l) (strL "Application.Run") = true →
       l.count '"' = 2 →
       endsWithL (pyStrip l) (strL "\"") = true →
       cl (st.lineNum + 1) = false →
       stripStep cl st l =
         { lineNum := st.lineNum + 1, ifCount := st.ifCount,
           acc := st.acc ++ [appRunSpec l] }) ∧
    (∀ (cl : Nat → Bool) (st : StripSt) (l : Line),
       startsWithL (pyStrip l) (strL "Application.Run") = true →
       l.count '"' = 2 →
       endsWithL (pyStrip l) (strL "\"") = false →
       cl (st.lineNum + 1) = false →
       endsWithL l (strL "End Function") = false →
       stripStep cl st l =
         { lineNum := st.lineNum + 1, ifCount := st.ifCount,
           acc := st.acc ++ [l] }) := by
  constructor
  · intro cl st l hApp hcount hquote hcl
    have hIf := startsWith_excl _ _ (strL "If ") hApp (by decide) (by decide)
    have hEnd := startsWith_excl _ _ (strL "End If") hApp (by decide)
      (by decide)
    have huc := uc_not_AppRun l hApp
    have hud : is_useless_dim l = false := by
      cases hud0 : is_useless_dim l with
      | false => rfl
      | true =>
        exact (not_startsWith_both _ _ _ (by decide) (by decide) hApp
          (ud_strip_Dim l hud0)).elim
    have hef := no_EndFunction_of_strip_quote l hquote
    have hguard : appRunGuard l = true := by
      simp [appRunGuard, hApp, hcount, hquote]
    simp only [stripStep, hIf, hEnd, Bool.false_eq_true, if_false]
    rw [stripRest]
    rw [if_neg (by simp [hcl]), if_neg (by simp [huc]),
      if_neg (by simp [hud]), if_neg (by simp [hef])]
    simp [hguard, appRunFix_eq_spec]
  · intro cl st l hApp hcount hquote hcl hef
    have hIf := startsWith_excl _ _ (strL "If ") hApp (by decide) (by decide)
    have hEnd := startsWith_excl _ _ (strL "End If") hApp (by decide)
      (by decide)
    have huc := uc_not_AppRun l hApp
    have hud : is_useless_dim l = false := by
      cases hud0 : is_useless_dim l with
      | false => rfl
      | true =>
        exact (not_startsWith_both _ _ _ (by decide) (by decide) hApp
          (ud_strip_Dim l hud0)).elim
    have hguard : appRunGuard l = false := by
      simp [appRunGuard, hquote]
    simp only [stripStep, hIf, hEnd, Bool.false_eq_true, if_false]
    rw [stripRest]
    rw [if_neg (by simp [hcl]), if_neg (by simp [huc]),
      if_neg (by simp [hud]), if_neg (by simp [hef])]
    simp [hguard]

/-- C8 witness: the guarded line is rewritten to its amended-spec image
(concretely `WScript.Shell  x, y z`); a two-quote line without a trailing
quote is kept verbatim. -/
theorem C8_wit :
    stripStep (fun _ => false) ⟨0, 0, []⟩
      (strL "Application.Run \"x, y z\"") =
      ⟨1, 0, [appRunSpec (strL "Application.Run \"x, y z\"")]⟩ ∧
    appRunSpec (strL "Application.Run \"x, y z\"") =
      strL "WScript.Shell  x, y z" ∧
    stripStep (fun _ => false) ⟨0, 0, []⟩
      (strL "Application.Run \"foo\" x") =
      ⟨1, 0, [strL "Application.Run \"foo\" x"]⟩ :=
  ⟨C8_thm.1 _ _ _ (by decide) (by decide) (by decide) rfl,
   by decide,
   C8_thm.2 _ _ _ (by decide) (by decide) (by decide) rfl (by decide)⟩

/-!  # Claim C3: `#If` block collapse  -/

/-- Outside a `#If` block, lines that do not open one pass through
verbatim. -/
theorem collapse_pass (ls : List Line) :
    ∀ (cb acc : List Line),
    (∀ l ∈ ls, startsWithL (pyStrip l) (strL "#If") = false) →
    ls.foldl collapseStep { blocks := none, currBlock := cb, acc := acc } =
      { blocks := none, currBlock := cb, acc := acc ++ ls } := by
  induction ls with
  | nil => intro cb acc _; simp
  | cons l ls ih =>
    intro cb acc hls
    rw [List.foldl_cons]
    have hstep : collapseStep
        { blocks := none, currBlock := cb, acc := acc } l =
        { blocks := none, currBlock := cb, acc := acc ++ [l] } := by
      simp [collapseStep, hls l (List.mem_cons_self _ _)]
    rw [hstep, ih _ _ (fun x hx => hls x (List.mem_cons_of_mem _ hx))]
    simp

/-- Inside a `#If` block, ordinary lines accumulate onto the current arm. -/
theorem collapse_arm (arm : List Line) :
    ∀ (bs : List (List Line)) (cb acc : List Line),
    (∀ l ∈ arm, startsWithL (pyStrip l) (strL "#Else") = false ∧
      startsWithL (pyStrip l) (strL "Else") = false ∧
      startsWithL (pyStrip l) (strL "#End") = false) →
    arm.foldl collapseStep
        { blocks := some bs, currBlock := cb, acc := acc } =
      { blocks := some bs, currBlock := cb ++ arm, acc := acc } := by
  induction arm with
  | nil => intro bs cb acc _; simp
  | cons l arm ih =>
    intro bs cb acc hm
    rw [List.foldl_cons]
    obtain ⟨h1, h2, h3⟩ := hm l (List.mem_cons_self _ _)
    have hstep : collapseStep
        { blocks := some bs, currBlock := cb, acc := acc } l =
        { blocks := some bs, currBlock := cb ++ [l], acc := acc } := by
      simp [collapseStep, h1, h2, h3]
    rw [hstep, ih _ _ _ (fun x hx => hm x (List.mem_cons_of_mem _ hx))]
    simp

/-- A sequence of arm-plus-separator groups appends the arms, in order, to
the recorded blocks. -/
theorem collapse_pairs (pairs : List (List Line × Line)) :
    ∀ (bs : List (List Line)) (acc : List Line),
    (∀ p ∈ pairs,
      (∀ l ∈ p.1, startsWithL (pyStrip l) (strL "#Else") = false ∧
        startsWithL (pyStrip l) (strL "Else") = false ∧
        startsWithL (pyStrip l) (strL "#End") = false) ∧
      (startsWithL (pyStrip p.2) (strL "#Else") = true ∨
       startsWithL (pyStrip p.2) (strL "Else") = true)) →
    (flatL (pairs.map (fun p => p.1 ++ [p.2]))).foldl collapseStep
        { blocks := some bs, currBlock := [], acc := acc } =
      { blocks := some (bs ++ pairs.map (fun p => p.1)), currBlock := [],
        acc := acc } := by
  induction pairs with
  | nil => intro bs acc _; simp [flatL]
  | cons p pairs ih =>
    intro bs acc hp
    obtain ⟨harm, hsep⟩ := hp p (List.mem_cons_self _ _)
    simp only [List.map_cons, flatL, List.append_assoc,
      List.singleton_append]
    rw [List.foldl_append]
    rw [collapse_arm p.1 bs [] acc harm]
    have hstep : collapseStep
        { blocks := some bs, currBlock := [] ++ p.1, acc := acc } p.2 =
        { blocks := some (bs ++ [[] ++ p.1]), currBlock := [],
          acc := acc } := by
      rcases hsep with h | h <;> simp [collapseStep, h]
    rw [List.foldl_cons, hstep,
      ih _ _ (fun x hx => hp x (List.mem_cons_of_mem _ hx))]
    simp

/-- C3 (amended): the collapse treats any line beginning (after strip)
with `#Else` **or `Else`** as an arm separator and any line beginning with
`#End` as the block end; among the arms so delimited it keeps exactly the
earliest one of maximal line count, emits its lines verbatim, and removes
the `#If`, separator and `#End` marker lines; surrounding lines pass
through verbatim. -/
theorem C3_thm (pre post lastArm : List Line)
    (pairs : List (List Line × Line)) (hif hend : Line)
    (hpre : ∀ l ∈ pre, startsWithL (pyStrip l) (strL "#If") = false)
    (hpost : ∀ l ∈ post, startsWithL (pyStrip l) (strL "#If") = false)
    (hhif : startsWithL (pyStrip hif) (strL "#If") = true)
    (hhend : startsWithL (pyStrip hend) (strL "#End") = true)
    (hpairs : ∀ p ∈ pairs,
      (∀ l ∈ p.1, startsWithL (pyStrip l) (strL "#Else") = false ∧
        startsWithL (pyStrip l) (strL "Else") = false ∧
        startsWithL (pyStrip l) (strL "#End") = false) ∧
      (startsWithL (pyStrip p.2) (strL "#Else") = true ∨
       startsWithL (pyStrip p.2) (strL "Else") = true))
    (hlast : ∀ l ∈ lastArm,
      startsWithL (pyStrip l) (strL "#Else") = false ∧
      startsWithL (pyStrip l) (strL "Else") = false ∧
      startsWithL (pyStrip l) (strL "#End") = false) :
    collapseLines (pre ++
        (hif :: (flatL (pairs.map (fun p => p.1 ++ [p.2])) ++ lastArm)) ++
        hend :: post) =
      pre ++ biggestBlock (pairs.map (fun p => p.1) ++ [lastArm]) ++ post := by
  rw [collapseLines]
  rw [show pre ++
      (hif :: (flatL (pairs.map (fun p => p.1 ++ [p.2])) ++ lastArm)) ++
      hend :: post =
    pre ++ (hif :: (flatL (pairs.map (fun p => p.1 ++ [p.2])) ++
      (lastArm ++ hend :: post))) from by simp [List.append_assoc]]
  rw [List.foldl_append]
  rw [collapse_pass pre [] [] hpre]
  rw [List.foldl_cons]
  have hstep1 : collapseStep
      { blocks := none, currBlock := [], acc := [] ++ pre } hif =
      { blocks := some [], currBlock := [], acc := [] ++ pre } := by
    simp [collapseStep, hhif]
  rw [hstep1]
  rw [List.foldl_append]
  rw [collapse_pairs pairs [] ([] ++ pre) hpairs]
  rw [List.foldl_append]
  rw [collapse_arm lastArm _ [] _ hlast]
  rw [List.foldl_cons]
  have h1 := startsWith_excl _ _ (strL "#Else") hhend (by decide) (by decide)
  have h2 := startsWith_excl _ _ (strL "Else") hhend (by decide) (by decide)
  have hstep2 : collapseStep
      { blocks := some ([] ++ pairs.map (fun p => p.1)),
        currBlock := [] ++ lastArm, acc := [] ++ pre } hend =
      { blocks := none, currBlock := [],
        acc := ([] ++ pre) ++
          biggestBlock (([] ++ pairs.map (fun p => p.1)) ++
            [[] ++ lastArm]) } := by
    simp [collapseStep, hhend, h1, h2]
  rw [hstep2]
  rw [collapse_pass post [] _ hpost]
  simp [List.append_assoc]

/-- C3 witness: the specification's own scenario — a two-line arm against a
five-line arm — keeps the five-line arm verbatim and drops the markers. -/
theorem C3_wit :
    collapseLines
      (([] : List Line) ++
        (strL "#If A Then" ::
          (flatL ([([strL "x = 1", strL "y = 2"], strL "#Else")].map
            (fun p => p.1 ++ [p.2])) ++
           [strL "a", strL "b", strL "c", strL "d", strL "e"])) ++
        strL "#End If" :: ([] : List Line)) =
      [strL "a", strL "b", strL "c", strL "d", strL "e"] := by
  have h := C3_thm [] [] [strL "a", strL "b", strL "c", strL "d", strL "e"]
    [([strL "x = 1", strL "y = 2"], strL "#Else")]
    (strL "#If A Then") (strL "#End If")
    (by decide) (by decide) (by decide) (by decide) (by decide) (by decide)
  rw [h]
  decide

/-!  # Claim C4: interesting calls are never tracked for stripping  -/

/-- Peeling the last line off the assignment scan. -/
theorem scanLines_append (ls : List Line) (l : Line) :
    scanLines (ls ++ [l]) = scanStep (scanLines ls) l := by
  rw [scanLines, scanLines, List.foldl_append, List.foldl_cons,
    List.foldl_nil]

/-- The scan's line counter is the number of lines seen. -/
theorem scanLines_lineNum_aux (ls : List Line) :
    ∀ st : ScanSt, (ls.foldl scanStep st).lineNum =
      st.lineNum + ls.length := by
  induction ls with
  | nil => intro st; simp
  | cons l ls ih =>
    intro st
    rw [List.foldl_cons, ih]
    simp [scanStep]
    omega

/-- The scan's line counter equals the line count. -/
theorem scanLines_lineNum (ls : List Line) :
    (scanLines ls).lineNum = ls.length := by
  rw [scanLines, scanLines_lineNum_aux]
  simp

/-- Every entry `(v, n)` recorded by the scan comes from line `n`, and that
line passed every guard — with exactly the external-function declarations
visible after processing it. -/
theorem scan_entries_spec (ls : List Line) :
    ∀ v n, (v, n) ∈ (scanLines ls).entries →
    ∃ l, ls.get? (n - 1) = some l ∧
      trackedLine l ((scanLines (ls.take n)).externalFuncs) = true := by
  induction ls using List.reverseRecOn with
  | nil =>
    intro v n h
    simp [scanLines] at h
  | append_singleton ls l ih =>
    intro v n h
    rw [scanLines_append] at h
    have hentries : (scanStep (scanLines ls) l).entries =
        (scanLines ls).entries ++
        (if trackedLine l ((scanStep (scanLines ls) l).externalFuncs) then
          (findAssignNames l).map
            (fun v => (v, (scanLines ls).lineNum + 1))
        else []) := by
      rw [scanStep]
    rw [hentries] at h
    rcases List.mem_append.1 h with h | h
    · obtain ⟨l', hget, htr⟩ := ih v n h
      have hlt : n - 1 < ls.length := by
        rcases List.get?_eq_some.1 hget with ⟨hl, -⟩
        exact hl
      refine ⟨l', ?_, ?_⟩
      · rw [List.get?_append hlt]
        exact hget
      · rw [List.take_append_eq_append_take,
          show n - ls.length = 0 from by omega, List.take_zero,
          List.append_nil]
        exact htr
    · by_cases htl :
        trackedLine l ((scanStep (scanLines ls) l).externalFuncs) = true
      · rw [if_pos htl] at h
        obtain ⟨v', -, hv⟩ := List.mem_map.1 h
        have hn : n = ls.length + 1 := by
          have := congrArg Prod.snd hv
          simp [scanLines_lineNum] at this
          omega
        subst hn
        refine ⟨l, ?_, ?_⟩
        · rw [Nat.add_sub_cancel]
          exact List.get?_concat_length ls l
        · rw [List.take_append_eq_append_take,
            List.take_of_length_le (by omega),
            show ls.length + 1 - ls.length = 1 from by omega]
          simp only [List.take_succ_cons, List.take_zero]
          rw [scanLines_append]
          exact htl
      · rw [if_neg htl] at h
        exact absurd h (List.not_mem_nil _)

/-- C4 (amended): a line that the liveness pass strips (its number is in
`comment_lines`) never contains a tracked interesting builtin or declared
external function — `is_interesting_call` is false for it, with exactly
the `Declare … Lib …` lines seen up to that point — and the text after its
last `=` contains neither `.` nor `CreateObject`.  (This protection is
only about the liveness pass: a later `#If` collapse can still drop an
interesting line, as the counterexample shows.) -/
theorem C4_thm (ls : List Line) (n : Nat) (h : commentLineB ls n = true) :
    ∃ l, ls.get? (n - 1) = some l ∧
      is_interesting_call l ((scanLines (ls.take n)).externalFuncs) =
        false ∧
      containsL (afterLastEq l) (strL ".") = false ∧
      containsL (afterLastEq l) (strL "CreateObject") = false := by
  simp only [commentLineB, Bool.and_eq_true] at h
  obtain ⟨hany, -⟩ := h
  obtain ⟨e, he, hn⟩ := List.any_eq_true.1 hany
  obtain ⟨v, m⟩ := e
  have hm : m = n := by simpa using hn
  rw [hm] at he
  obtain ⟨l, hget, htr⟩ := scan_entries_spec ls v n he
  refine ⟨l, hget, ?_, ?_, ?_⟩
  · have h6 := htr
    simp only [trackedLine, Bool.and_eq_true] at h6
    have := h6.1.1.1.1.1.2
    simpa using this
  · have h10 := htr
    simp only [trackedLine, Bool.and_eq_true] at h10
    have := h10.1.2
    simpa using this
  · have h11 := htr
    simp only [trackedLine, Bool.and_eq_true] at h11
    have := h11.2
    simpa using this

/-- C4 witness: the dead assignment `a = 1` is stripped, and the theorem
certifies it carries no interesting call and no dotted or
`CreateObject` right-hand side. -/
theorem C4_wit :
    commentLineB [strL "a = 1"] 1 = true ∧
    ∃ l, [strL "a = 1"].get? (1 - 1) = some l ∧
      is_interesting_call l
        ((scanLines ([strL "a = 1"].take 1)).externalFuncs) = false ∧
      containsL (afterLastEq l) (strL ".") = false ∧
      containsL (afterLastEq l) (strL "CreateObject") = false :=
  ⟨by decide, C4_thm [strL "a = 1"] 1 (by decide)⟩

/-!  # Claim C5: provenance of normalized lines  -/

/-- A character split always yields at least one piece. -/
theorem splitOnChar_ne_nil (sep : Char) (cs : Line) :
    splitOnChar sep cs ≠ [] := by
  cases cs with
  | nil => simp [splitOnChar]
  | cons c tl =>
    simp only [splitOnChar]
    split
    · simp
    · split
      · simp
      · simp

/-- Pieces of a split do not contain the separator. -/
theorem splitOnChar_mem_noSep (sep : Char) (cs : Line) :
    ∀ l ∈ splitOnChar sep cs, sep ∉ l := by
  induction cs with
  | nil =>
    intro l hl
    simp [splitOnChar] at hl
    subst hl
    simp
  | cons c tl ih =>
    intro l hl
    by_cases hc : c = sep
    · simp only [splitOnChar, if_pos hc] at hl
      rcases List.mem_cons.1 hl with rfl | hl
      · simp
      · exact ih l hl
    · simp only [splitOnChar, if_neg hc] at hl
      obtain ⟨h, t, hht⟩ : ∃ h t, splitOnChar sep tl = h :: t := by
        cases hsp : splitOnChar sep tl with
        | nil => exact absurd hsp (splitOnChar_ne_nil sep tl)
        | cons h t => exact ⟨h, t, rfl⟩
      rw [hht] at hl
      rcases List.mem_cons.1 hl with rfl | hl
      · intro hmem
        rcases List.mem_cons.1 hmem with h1 | h1
        · exact hc h1.symm
        · exact ih h (by rw [hht]; exact List.mem_cons_self _ _) h1
      · exact ih l (by rw [hht]; exact List.mem_cons_of_mem _ hl)

/-- Splitting after a separator-free prefix extends the first piece. -/
theorem splitOnChar_append_noSep (sep : Char) (a : Line) :
    ∀ (b h : Line) (t : List Line), (∀ c ∈ a, ¬ c = sep) →
    splitOnChar sep b = h :: t →
    splitOnChar sep (a ++ b) = (a ++ h) :: t := by
  induction a with
  | nil => intro b h t _ hb; simpa using hb
  | cons c a ih =>
    intro b h t ha hb
    have hrec := ih b h t (fun x hx => ha x (List.mem_cons_of_mem _ hx)) hb
    simp only [List.cons_append, splitOnChar, List.append_eq, hrec]
    rw [if_neg (ha c (List.mem_cons_self _ _))]

/-- Splitting the newline-terminated join of newline-free lines recovers
them, plus one trailing empty piece. -/
theorem splitLines_joinNL (ls : List Line) (h : ∀ l ∈ ls, '\n' ∉ l) :
    splitLines (joinNL ls) = ls ++ [[]] := by
  induction ls with
  | nil => rfl
  | cons l ls ih =>
    simp only [joinNL]
    have hb : splitOnChar '\n' ('\n' :: joinNL ls) =
        [] :: (ls ++ [[]]) := by
      simp only [splitOnChar, if_pos rfl]
      have : splitLines (joinNL ls) = ls ++ [[]] :=
        ih (fun x hx => h x (List.mem_cons_of_mem _ hx))
      rw [splitLines] at this
      rw [this]
      simp
    rw [splitLines]
    rw [splitOnChar_append_noSep '\n' l _ _ _
      (fun c hc hceq => (h l (List.mem_cons_self _ _)) (hceq ▸ hc)) hb]
    simp

/-- Characters of a replacement come from the subject or the replacement
text. -/
theorem replaceLAux_chars (pat repl : Line) :
    ∀ (fuel : Nat) (cs : Line) (c : Char),
    c ∈ replaceLAux pat repl fuel cs → c ∈ cs ∨ c ∈ repl := by
  intro fuel
  induction fuel with
  | zero => intro cs c h; exact Or.inl h
  | succ fuel ih =>
    intro cs c h
    cases cs with
    | nil => simp [replaceLAux] at h
    | cons x tl =>
      simp only [replaceLAux] at h
      split at h
      · rcases List.mem_append.1 h with h | h
        · exact Or.inr h
        · rcases ih _ c h with h | h
          · exact Or.inl (List.mem_of_mem_drop h)
          · exact Or.inr h
      · rcases List.mem_cons.1 h with rfl | h
        · exact Or.inl (List.mem_cons_self _ _)
        · rcases ih _ c h with h | h
          · exact Or.inl (List.mem_cons_of_mem _ h)
          · exact Or.inr h

/-- Characters of `replaceL` come from the subject or the replacement. -/
theorem replaceL_chars (cs pat repl : Line) (c : Char)
    (h : c ∈ replaceL cs pat repl) : c ∈ cs ∨ c ∈ repl :=
  replaceLAux_chars pat repl cs.length cs c h

/-- Characters of the `Application.Run` repair come from the prefix
`WScript.Shell ` or the original line. -/
theorem appRunFix_chars (l : Line) (c : Char) (h : c ∈ appRunFix l) :
    c ∈ strL "WScript.Shell " ∨ c ∈ l := by
  simp only [appRunFix] at h
  split at h
  · rcases List.mem_append.1 h with h | h
    · exact Or.inl h
    · rcases replaceL_chars _ _ _ c h with h | h
      · rcases replaceL_chars _ _ _ c h with h | h
        · exact Or.inr h
        · exact absurd h (List.not_mem_nil _)
      · exact absurd h (List.not_mem_nil _)
  · rcases replaceL_chars _ _ _ c h with h | h
    · rcases replaceL_chars _ _ _ c h with h | h
      · exact Or.inr h
      · exact absurd h (List.not_mem_nil _)
    · exact absurd h (List.not_mem_nil _)

/-- The lines one rewriting step can append. -/
theorem stripStep_acc (cl : Nat → Bool) (st : StripSt) (l : Line) :
    (stripStep cl st l).acc = st.acc ∨
    (stripStep cl st l).acc = st.acc ++ [strL "End Function"] ∨
    (stripStep cl st l).acc =
      st.acc ++ [replaceL l (strL "End Function") [],
                 strL "End Function"] ∨
    (stripStep cl st l).acc = st.acc ++ [l] ∨
    (stripStep cl st l).acc = st.acc ++ [appRunFix l] := by
  simp only [stripStep, stripRest]
  repeat' split
  all_goals simp

/-- Provenance of the rewriting loop's output lines. -/
theorem stripLines_mem_aux (cl : Nat → Bool) (ls : List Line) :
    ∀ (st : StripSt) (ol : Line), ol ∈ (ls.foldl (stripStep cl) st).acc →
    ol ∈ st.acc ∨ ol ∈ ls ∨ ol = strL "End Function" ∨
    (∃ l ∈ ls, ol = replaceL l (strL "End Function") []) ∨
    (∃ l ∈ ls, ol = appRunFix l) := by
  induction ls with
  | nil => intro st ol h; exact Or.inl h
  | cons l ls ih =>
    intro st ol h
    rw [List.foldl_cons] at h
    rcases ih (stripStep cl st l) ol h with
      h | h | h | ⟨l', hl', rfl⟩ | ⟨l', hl', rfl⟩
    · rcases stripStep_acc cl st l with ha | ha | ha | ha | ha <;>
        rw [ha] at h
      · exact Or.inl h
      · rcases List.mem_append.1 h with h | h
        · exact Or.inl h
        · right; right; left; simpa using h
      · rcases List.mem_append.1 h with h | h
        · exact Or.inl h
        · simp only [List.mem_cons, List.mem_singleton] at h
          rcases h with rfl | h
          · right; right; right; left
            exact ⟨l, List.mem_cons_self _ _, rfl⟩
          · simp only [List.not_mem_nil, or_false] at h
            subst h
            right; right; left; rfl
      · rcases List.mem_append.1 h with h | h
        · exact Or.inl h
        · right; left
          simp only [List.mem_singleton] at h
          subst h
          exact List.mem_cons_self _ _
      · rcases List.mem_append.1 h with h | h
        · exact Or.inl h
        · right; right; right; right
          refine ⟨l, List.mem_cons_self _ _, by simpa using h⟩
    · right; left; exact List.mem_cons_of_mem _ h
    · right; right; left; exact h
    · right; right; right; left
      exact ⟨l', List.mem_cons_of_mem _ hl', rfl⟩
    · right; right; right; right
      exact ⟨l', List.mem_cons_of_mem _ hl', rfl⟩

/-- Provenance of the rewriting loop's emitted lines, from the empty
accumulator. -/
theorem stripLines_mem (cl : Nat → Bool) (ls : List Line) :
    ∀ ol ∈ stripLines cl ls, ol ∈ ls ∨ ol = strL "End Function" ∨
    (∃ l ∈ ls, ol = replaceL l (strL "End Function") []) ∨
    (∃ l ∈ ls, ol = appRunFix l) := by
  intro ol h
  rcases stripLines_mem_aux cl ls _ ol h with h | h | h | h | h
  · exact absurd h (List.not_mem_nil _)
  · exact Or.inl h
  · exact Or.inr (Or.inl h)
  · exact Or.inr (Or.inr (Or.inl h))
  · exact Or.inr (Or.inr (Or.inr h))

/-- The pick of the largest block is empty or one of the blocks. -/
theorem biggest_aux (bs : List (List Line)) :
    ∀ b0 : List Line,
    bs.foldl (fun best b => if best.length < b.length then b else best) b0 =
      b0 ∨
    bs.foldl (fun best b => if best.length < b.length then b else best) b0 ∈
      bs := by
  induction bs with
  | nil => intro b0; exact Or.inl rfl
  | cons b bs ih =>
    intro b0
    rw [List.foldl_cons]
    rcases ih (if b0.length < b.length then b else b0) with h | h
    · rw [h]
      split
      · exact Or.inr (List.mem_cons_self _ _)
      · exact Or.inl rfl
    · exact Or.inr (List.mem_cons_of_mem _ h)

/-- `biggestBlock` is empty or a member. -/
theorem biggest_mem (bs : List (List Line)) :
    biggestBlock bs = [] ∨ biggestBlock bs ∈ bs := biggest_aux bs []

/-- One collapse step preserves a line property of all stored lines. -/
theorem collapseStep_inv (S : Line → Prop) (st : CollapseSt) (m : Line)
    (hacc : ∀ x ∈ st.acc, S x) (hcb : ∀ x ∈ st.currBlock, S x)
    (hbl : ∀ bs, st.blocks = some bs → ∀ b ∈ bs, ∀ x ∈ b, S x)
    (hm : S m) :
    (∀ x ∈ (collapseStep st m).acc, S x) ∧
    (∀ x ∈ (collapseStep st m).currBlock, S x) ∧
    (∀ bs, (collapseStep st m).blocks = some bs →
      ∀ b ∈ bs, ∀ x ∈ b, S x) := by
  rcases st with ⟨blocks, cb, acc⟩
  rcases blocks with _ | bs
  · simp only [collapseStep]
    split
    · refine ⟨by simpa using hacc, by simp, ?_⟩
      intro bs' hbs' b hbmem x hx
      injection hbs' with hb0
      subst hb0
      exact absurd hbmem (List.not_mem_nil _)
    · refine ⟨?_, by simpa using hcb, ?_⟩
      · intro x hx
        rcases List.mem_append.1 hx with hx | hx
        · exact hacc x hx
        · simp only [List.mem_singleton] at hx
          subst hx
          exact hm
      · intro bs' hbs'
        exact absurd hbs' (by simp)
  · simp only [collapseStep]
    split
    · refine ⟨by simpa using hacc, by simp, ?_⟩
      intro bs' hbs' b hbmem x hx
      injection hbs' with hb0
      subst hb0
      rcases List.mem_append.1 hbmem with hbm | hbm
      · exact hbl bs rfl b hbm x hx
      · simp only [List.mem_singleton] at hbm
        subst hbm
        exact hcb x hx
    · split
      · refine ⟨?_, by simp, ?_⟩
        · intro x hx
          rcases List.mem_append.1 hx with hx | hx
          · exact hacc x hx
          · rcases biggest_mem (bs ++ [cb]) with hbig | hbig
            · rw [hbig] at hx
              exact absurd hx (List.not_mem_nil _)
            · rcases List.mem_append.1 hbig with hbm | hbm
              · exact hbl bs rfl _ hbm x hx
              · simp only [List.mem_singleton] at hbm
                rw [hbm] at hx
                exact hcb x hx
        · intro bs' hbs'
          exact absurd hbs' (by simp)
      · refine ⟨by simpa using hacc, ?_, ?_⟩
        · intro x hx
          rcases List.mem_append.1 hx with hx | hx
          · exact hcb x hx
          · simp only [List.mem_singleton] at hx
            subst hx
            exact hm
        · intro bs' hbs' b hbm x hx
          injection hbs' with hb0
          subst hb0
          exact hbl bs rfl b hbm x hx

/-- The collapse only re-emits lines of its input. -/
theorem collapse_mem_aux (ms : List Line) :
    ∀ (st : CollapseSt) (S : Line → Prop),
    (∀ x ∈ st.acc, S x) → (∀ x ∈ st.currBlock, S x) →
    (∀ bs, st.blocks = some bs → ∀ b ∈ bs, ∀ x ∈ b, S x) →
    (∀ x ∈ ms, S x) →
    ∀ ol ∈ (ms.foldl collapseStep st).acc, S ol := by
  induction ms with
  | nil => intro st S hacc _ _ _ ol hol; exact hacc ol hol
  | cons m ms ih =>
    intro st S hacc hcb hbl hms ol hol
    rw [List.foldl_cons] at hol
    obtain ⟨h1, h2, h3⟩ := collapseStep_inv S st m hacc hcb hbl
      (hms m (List.mem_cons_self _ _))
    exact ih _ S h1 h2 h3
      (fun x hx => hms x (List.mem_cons_of_mem _ hx)) ol hol

/-- Every line emitted by `collapse_macro_if_blocks` is an input line. -/
theorem collapseLines_mem (ms : List Line) :
    ∀ ol ∈ collapseLines ms, ol ∈ ms := by
  intro ol hol
  exact collapse_mem_aux ms _ (fun x => x ∈ ms)
    (fun x hx => absurd hx (List.not_mem_nil _))
    (fun x hx => absurd hx (List.not_mem_nil _))
    (fun bs hbs => absurd hbs (by simp))
    (fun x hx => hx) ol hol

/-- The rewriting loop's output lines contain no newline when its input
lines do not. -/
theorem stripLines_noNL (cl : Nat → Bool) (ls : List Line)
    (hls : ∀ l ∈ ls, '\n' ∉ l) :
    ∀ ol ∈ stripLines cl ls, '\n' ∉ ol := by
  intro ol hol
  rcases stripLines_mem cl ls ol hol with h | h | ⟨l, hl, rfl⟩ | ⟨l, hl, rfl⟩
  · exact hls ol h
  · subst h; decide
  · intro hmem
    rcases replaceL_chars _ _ _ _ hmem with h' | h'
    · exact hls l hl h'
    · exact absurd h' (List.not_mem_nil _)
  · intro hmem
    rcases appRunFix_chars _ _ hmem with h' | h'
    · revert h'; decide
    · exact hls l hl h'

/-- C5 (amended): every line of the normalized output is either empty, an
input line kept byte-for-byte (so its string literals survive verbatim),
the repair text `End Function`, an input line with all its `End Function`
occurrences removed, or the `Application.Run` repair of an input line
(the repair that deletes the two quote characters).  String literals are
preserved except on lines touched by those two repairs. -/
theorem C5_thm (cs ol : Line) (h : ol ∈ splitLines (stripCore cs)) :
    ol = [] ∨ ol ∈ splitLines cs ∨ ol = strL "End Function" ∨
    (∃ l ∈ splitLines cs, ol = replaceL l (strL "End Function") []) ∨
    (∃ l ∈ splitLines cs, ol = appRunFix l) := by
  simp only [stripCore, collapseCore] at h
  have h0 : ∀ l ∈ splitLines cs, '\n' ∉ l := by
    intro l hl
    exact splitOnChar_mem_noSep '\n' cs l hl
  have h1 := stripLines_noNL (fun n => commentLineB (splitLines cs) n)
    (splitLines cs) h0
  rw [splitLines_joinNL _ h1] at h
  have h3 := collapseLines_mem
    (stripLines (fun n => commentLineB (splitLines cs) n)
      (splitLines cs) ++ [[]])
  have h4 : ∀ x ∈ collapseLines
      (stripLines (fun n => commentLineB (splitLines cs) n)
        (splitLines cs) ++ [[]]), '\n' ∉ x := by
    intro x hx
    rcases List.mem_append.1 (h3 x hx) with hx' | hx'
    · exact h1 x hx'
    · simp only [List.mem_singleton] at hx'
      subst hx'
      simp
  rw [splitLines_joinNL _ h4] at h
  rcases List.mem_append.1 h with h | h
  · rcases List.mem_append.1 (h3 ol h) with h' | h'
    · rcases stripLines_mem _ _ ol h' with hh | hh | hh | hh
      · exact Or.inr (Or.inl hh)
      · exact Or.inr (Or.inr (Or.inl hh))
      · exact Or.inr (Or.inr (Or.inr (Or.inl hh)))
      · exact Or.inr (Or.inr (Or.inr (Or.inr hh)))
    · simp only [List.mem_singleton] at h'
      exact Or.inl h'
  · simp only [List.mem_singleton] at h
    exact Or.inl h

/-- C5 witness: the kept line `x` of a two-line macro appears verbatim in
the normalized output, and the theorem accounts for it. -/
theorem C5_wit :
    strL "x" ∈ splitLines (stripCore (strL "x\ny")) ∧
    (strL "x" = ([] : Line) ∨ strL "x" ∈ splitLines (strL "x\ny") ∨
     strL "x" = strL "End Function" ∨
     (∃ l ∈ splitLines (strL "x\ny"),
       strL "x" = replaceL l (strL "End Function") []) ∨
     (∃ l ∈ splitLines (strL "x\ny"), strL "x" = appRunFix l)) :=
  ⟨by decide, C5_thm (strL "x\ny") (strL "x") (by decide)⟩
